import Mathlib

/-!
Shallow embedding of the scaffolder task broker core:
`plugins/scaffolder-backend/src/scaffolder/tasks/StorageTaskBroker.ts`
together with the task types from its `types.ts`.

Conventions of the embedding:
- promises are made explicit: an `await`ed storage call is a function
  `σ → Except JsError α × σ` threaded through an abstract store state `σ`;
  a call whose promise the source discards (fire and forget) has its
  `Except` result dropped but its state effect kept;
- a thrown JS error or rejected promise is `Except.error`;
- the heartbeat interval handle is a `Bool` (armed or cleared), and each
  firing of the interval callback is modelled as an explicit function;
- the polling loops are modelled as functions of an explicit list of
  per-iteration environment behaviours (one entry per poll the loop gets
  to perform), so that every interleaving of storage responses is covered.
-/

/-- A JS `Error` value (thrown, or carried by a rejected promise). Only the
message is relevant to this core. -/
structure JsError where
  message : String
deriving DecidableEq, Repr

/-- Embeds `Status` from types.ts. -/
inductive Status
  | «open»
  | processing
  | failed
  | cancelled
  | completed
deriving DecidableEq, Repr

/-- Embeds `CompletedTaskState` from types.ts: the two terminal results `complete` accepts. -/
inductive CompletedTaskState
  | failed
  | completed
deriving DecidableEq, Repr

/-- String interpolation of a `CompletedTaskState`, as in the template literal
`Run completed with status: ${result}`. -/
def completedTaskStateString : CompletedTaskState → String
  | CompletedTaskState.failed => "failed"
  | CompletedTaskState.completed => "completed"

/-- Embeds `TaskEventType` from types.ts. -/
inductive TaskEventType
  | completion
  | log
deriving DecidableEq, Repr

/-- One step of a `TaskSpec` (types.ts); the JSON `parameters` map is opaque
to this core and omitted. -/
structure TaskStep where
  id : String
  name : String
  action : String
deriving DecidableEq, Repr

/-- Embeds `TaskSpec` from types.ts. -/
structure TaskSpec where
  steps : List TaskStep
deriving DecidableEq, Repr

/-- Embeds `DbTaskRow` from types.ts. -/
structure DbTaskRow where
  id : String
  spec : TaskSpec
  status : Status
  lastHeartbeat : Option String
  retryCount : Nat
  createdAt : String
  runId : Option String
deriving DecidableEq, Repr

/-- Embeds `DbTaskEventRow` from types.ts; the JSON body only ever carries a
`message` string in this core, modelled directly. -/
structure DbTaskEventRow where
  id : Nat
  runId : String
  taskId : String
  body : String
  type : TaskEventType
  createdAt : String
deriving DecidableEq, Repr

/-- Embeds `DispatchResult` from types.ts. -/
structure DispatchResult where
  taskId : String
deriving DecidableEq, Repr

/-- Embeds `TaskStoreEmitOptions` from types.ts. -/
structure TaskStoreEmitOptions where
  taskId : String
  runId : String
  body : String
  type : TaskEventType
deriving DecidableEq, Repr

/-- One storage-contract call made by this core; used to trace which calls an
operation performs (and how often). -/
inductive StoreCall
  | createTask (spec : TaskSpec)
  | claimTask
  | heartbeat (runId : String)
  | setStatus (runId : String) (status : Status)
  | emit (options : TaskStoreEmitOptions)
  | getEvents (taskId : String) (after : Option Nat)
deriving DecidableEq, Repr

/-- The storage contract (`TaskStore` in types.ts) as consumed by this core,
over an abstract store state `σ`. Each primitive may reject. -/
structure TaskStore (σ : Type) where
  createTask : TaskSpec → σ → Except JsError DispatchResult × σ
  claimTask : σ → Except JsError (Option DbTaskRow) × σ
  heartbeat : String → σ → Except JsError Unit × σ
  setStatus : String → Status → σ → Except JsError Unit × σ
  emit : TaskStoreEmitOptions → σ → Except JsError Unit × σ
  getEvents : String → Option Nat → σ → Except JsError (List DbTaskEventRow) × σ

/-- Embeds `TaskState` from StorageTaskBroker.ts: the state wrapped by a TaskAgent.
`runId` is typed `string` there; a missing run id surfaces as the falsy
empty string (see the heartbeat guard). -/
structure TaskState where
  spec : TaskSpec
  taskId : String
  runId : String
deriving DecidableEq, Repr

/-- In-memory `TaskAgent`: its `TaskState` plus whether the heartbeat
interval installed by `start()` is still armed (`clearInterval` clears it). -/
structure TaskAgent where
  state : TaskState
  heartbeatInterval : Bool
deriving DecidableEq, Repr

/-- Embeds `TaskAgent.create`: constructs the agent and runs `start()`, which arms
the heartbeat interval. -/
def TaskAgent.create (state : TaskState) : TaskAgent :=
  { state := state, heartbeatInterval := true }

/-- Embeds `TaskAgent.getWorkspaceName`: the template literal
`${this.state.taskId}_${this.state.runId}`. -/
def TaskAgent.getWorkspaceName (agent : TaskAgent) : String :=
  agent.state.taskId ++ "_" ++ agent.state.runId

/-- Embeds `TaskAgent.emitLog`: one awaited `storage.emit` call with a `log`-typed
body; the result (success or rejection) is returned to the caller as is. -/
def TaskAgent.emitLog {σ : Type} (store : TaskStore σ) (agent : TaskAgent)
    (message : String) (s : σ) : Except JsError Unit × σ :=
  store.emit
    { taskId := agent.state.taskId, runId := agent.state.runId,
      body := message, type := TaskEventType.log } s

/-- Embeds `TaskAgent.complete`. The `setStatus` call is awaited, so its rejection
propagates and neither the completion emit nor the `clearInterval` runs in
that case. The completion `storage.emit` call is *not* awaited in the source
(fire and forget): its `Except` result is discarded and `complete` resolves
regardless; only its state effect remains. On success the heartbeat interval
is cleared. -/
def TaskAgent.complete {σ : Type} (store : TaskStore σ) (agent : TaskAgent)
    (result : CompletedTaskState) (s : σ) :
    Except JsError Unit × TaskAgent × σ :=
  match store.setStatus agent.state.runId
      (if result = CompletedTaskState.failed then Status.failed else Status.completed) s with
  | (Except.error e, s1) => (Except.error e, agent, s1)
  | (Except.ok _, s1) =>
    let emitted := store.emit
      { taskId := agent.state.taskId, runId := agent.state.runId,
        body := "Run completed with status: " ++ completedTaskStateString result,
        type := TaskEventType.completion } s1
    (Except.ok (), { agent with heartbeatInterval := false }, emitted.2)

/-- One firing of the interval callback installed by `TaskAgent.start`:
the guard `if (!this.state.runId) throw new Error('no run id provided')`
(the empty string is the falsy value a missing run id surfaces as), then
`this.storage.heartbeat(runId)` whose promise is discarded (not awaited):
a rejected heartbeat write is observed by nobody. -/
def TaskAgent.heartbeatTick {σ : Type} (store : TaskStore σ) (agent : TaskAgent)
    (s : σ) : Except JsError Unit × σ :=
  if agent.state.runId = "" then (Except.error { message := "no run id provided" }, s)
  else
    let written := store.heartbeat agent.state.runId s
    (Except.ok (), written.2)

/-- The interval only fires while armed; after `clearInterval` it never
fires again, so a cleared agent performs no storage call. -/
def TaskAgent.intervalFire {σ : Type} (store : TaskStore σ) (agent : TaskAgent)
    (s : σ) : Except JsError Unit × σ :=
  if agent.heartbeatInterval then TaskAgent.heartbeatTick store agent s
  else (Except.ok (), s)

/-- A store double whose primitives all succeed and record the calls made,
in order, in the store state. `createTask` hands back a fresh task id,
`claimTask` finds no eligible task. -/
def logStore : TaskStore (List StoreCall) where
  createTask := fun spec s => (Except.ok { taskId := "T1" }, s ++ [StoreCall.createTask spec])
  claimTask := fun s => (Except.ok none, s ++ [StoreCall.claimTask])
  heartbeat := fun runId s => (Except.ok (), s ++ [StoreCall.heartbeat runId])
  setStatus := fun runId status s => (Except.ok (), s ++ [StoreCall.setStatus runId status])
  emit := fun options s => (Except.ok (), s ++ [StoreCall.emit options])
  getEvents := fun taskId after s => (Except.ok [], s ++ [StoreCall.getEvents taskId after])

/-- The rejection every failing call of `failStore` carries. -/
def dbErr : JsError := { message := "storage failure" }

/-- A store double whose primitives all record their call and then reject. -/
def failStore : TaskStore (List StoreCall) where
  createTask := fun spec s => (Except.error dbErr, s ++ [StoreCall.createTask spec])
  claimTask := fun s => (Except.error dbErr, s ++ [StoreCall.claimTask])
  heartbeat := fun runId s => (Except.error dbErr, s ++ [StoreCall.heartbeat runId])
  setStatus := fun runId status s => (Except.error dbErr, s ++ [StoreCall.setStatus runId status])
  emit := fun options s => (Except.error dbErr, s ++ [StoreCall.emit options])
  getEvents := fun taskId after s => (Except.error dbErr, s ++ [StoreCall.getEvents taskId after])

/-- A store double where only `emit` rejects (recording its call); every
other primitive behaves like `logStore`. -/
def failEmitStore : TaskStore (List StoreCall) :=
  { logStore with
    emit := fun options s => (Except.error dbErr, s ++ [StoreCall.emit options]) }

/-- A store double where only `heartbeat` rejects; every other primitive
behaves like `logStore`. -/
def failHeartbeatStore : TaskStore (List StoreCall) :=
  { logStore with
    heartbeat := fun runId s => (Except.error dbErr, s ++ [StoreCall.heartbeat runId]) }

/-- A fixed concrete task spec for concrete evaluations. -/
def specA : TaskSpec :=
  { steps := [{ id := "s1", name := "first", action := "run" }] }

/-- A concrete claimed task state. -/
def stateA : TaskState := { spec := specA, taskId := "T1", runId := "R1" }

/-- C9: getWorkspaceName returns exactly the task id, an underscore and the run
id, as a pure computation with no storage interaction. -/
theorem getWorkspaceName_eq_taskId_underscore_runId (spec : TaskSpec) (t r : String) :
    TaskAgent.getWorkspaceName (TaskAgent.create { spec := spec, taskId := t, runId := r })
      = t ++ "_" ++ r := rfl

/-- C5: complete over a succeeding store sets the status to failed exactly when
the result is failed and to completed otherwise, appends one
completion-typed event for the run, clears the heartbeat interval, and a
subsequent firing of the (cleared) interval performs no storage call. -/
theorem complete_sets_status_emits_completion_and_stops_heartbeat
    (st : TaskState) (result : CompletedTaskState) :
    TaskAgent.complete logStore (TaskAgent.create st) result []
      = (Except.ok (),
         { state := st, heartbeatInterval := false },
         [StoreCall.setStatus st.runId
            (if result = CompletedTaskState.failed then Status.failed else Status.completed),
          StoreCall.emit
            { taskId := st.taskId, runId := st.runId,
              body := "Run completed with status: " ++ completedTaskStateString result,
              type := TaskEventType.completion }])
    ∧ TaskAgent.intervalFire logStore { state := st, heartbeatInterval := false } []
        = (Except.ok (), []) := by
  constructor
  · cases result <;> rfl
  · rfl

/-- C8: a heartbeat firing with no run identifier bound (the falsy empty string)
throws the `no run id provided` error and performs no storage write; with a
run identifier bound it writes one heartbeat for exactly that run id. -/
theorem heartbeat_throws_without_runId_else_writes (st : TaskState) :
    TaskAgent.heartbeatTick logStore { state := st, heartbeatInterval := true } []
      = if st.runId = "" then (Except.error { message := "no run id provided" }, [])
        else (Except.ok (), [StoreCall.heartbeat st.runId]) := by
  by_cases h : st.runId = "" <;> simp [TaskAgent.heartbeatTick, logStore, h]

/-- The broker's in-process dispatch gate (`defer()` in the source), modelled
by its generation number: `signalDispatch` resolves the current gate and
installs a fresh one, so exactly the generations below `deferredDispatch`
have been resolved and the generation `deferredDispatch` itself is the
unresolved gate a new waiter would capture. -/
structure StorageTaskBroker where
  deferredDispatch : Nat
deriving DecidableEq, Repr

/-- Embeds `signalDispatch`: resolve the current deferred, then install a fresh one. -/
def StorageTaskBroker.signalDispatch (b : StorageTaskBroker) : StorageTaskBroker :=
  { b with deferredDispatch := b.deferredDispatch + 1 }

/-- Embeds `dispatch`: await `storage.createTask(spec)` — a rejection propagates and
no signal is raised — then `signalDispatch()` and return the new task id. -/
def StorageTaskBroker.dispatch {σ : Type} (store : TaskStore σ) (b : StorageTaskBroker)
    (spec : TaskSpec) (s : σ) :
    Except JsError DispatchResult × StorageTaskBroker × σ :=
  match store.createTask spec s with
  | (Except.error e, s1) => (Except.error e, b, s1)
  | (Except.ok row, s1) => (Except.ok { taskId := row.taskId }, b.signalDispatch, s1)

/-- The agent state `claim` builds from a claimed row:
`{ runId: pendingTask.runId!, taskId: pendingTask.id, spec: pendingTask.spec }`.
The non-null assertion performs no conversion; a row missing its run id
surfaces as the falsy empty string. -/
def agentStateOf (row : DbTaskRow) : TaskState :=
  { spec := row.spec, taskId := row.id, runId := row.runId.getD "" }

/-- What the `claim` loop does at each iteration, for its trace: one awaited
`storage.claimTask()` attempt, or one suspension on `waitForDispatch()`. -/
inductive ClaimEvent
  | poll (result : Except JsError (Option DbTaskRow))
  | waitForDispatch
deriving Repr

/-- The `for (;;)` loop of `claim`, driven by the environment: one entry per
`storage.claimTask()` outcome the loop gets to observe. Returns the loop's
trace together with its outcome: `none` while the environment is exhausted
and the loop is still running, `some (Except.error e)` when an attempt
rejected (the rejection propagates out of `claim`), and
`some (Except.ok agent)` when an attempt returned a row. After an attempt
that returns no row the loop suspends on `waitForDispatch()` before the
next attempt. -/
def claimRun :
    List (Except JsError (Option DbTaskRow)) →
    List ClaimEvent × Option (Except JsError TaskAgent)
  | [] => ([], none)
  | r :: rest =>
    match r with
    | Except.error e => ([ClaimEvent.poll (Except.error e)], some (Except.error e))
    | Except.ok (some row) =>
        ([ClaimEvent.poll (Except.ok (some row))],
         some (Except.ok (TaskAgent.create (agentStateOf row))))
    | Except.ok none =>
        let next := claimRun rest
        (ClaimEvent.poll (Except.ok none) :: ClaimEvent.waitForDispatch :: next.1, next.2)

/-- The first row among the claim attempts, if any. -/
def firstClaimed : List (Option DbTaskRow) → Option DbTaskRow
  | [] => none
  | some row :: _ => some row
  | none :: rest => firstClaimed rest

/-- A claim-loop trace never busy-spins: every attempt that found no task is
immediately followed by a suspension on the dispatch gate. -/
def noBusySpin : List ClaimEvent → Bool
  | ClaimEvent.poll (Except.ok none) :: ClaimEvent.waitForDispatch :: rest => noBusySpin rest
  | ClaimEvent.poll (Except.ok none) :: _ => false
  | _ :: rest => noBusySpin rest
  | [] => true

/-- C7: against storage attempts that never reject, `claim` returns exactly
when some attempt returns a row — the returned agent is built from the first
such row (run id, task id and spec taken from it) — it never returns without
a task (outcome `none` exactly when every attempt found nothing, the loop
still waiting), and its trace never busy-spins: each empty attempt is
followed by a suspension on the dispatch gate before the next attempt. -/
theorem claim_returns_first_claimed_row_and_never_busy_spins
    (rs : List (Option DbTaskRow)) :
    (claimRun (rs.map Except.ok)).2
        = Option.map (fun row => Except.ok (TaskAgent.create (agentStateOf row)))
            (firstClaimed rs)
    ∧ noBusySpin (claimRun (rs.map Except.ok)).1 = true := by
  induction rs with
  | nil => exact ⟨rfl, rfl⟩
  | cons r rest ih =>
    cases r with
    | some row => exact ⟨rfl, rfl⟩
    | none =>
      refine ⟨?_, ?_⟩
      · simpa [claimRun, firstClaimed] using ih.1
      · simpa [claimRun, noBusySpin] using ih.2

/-- A concrete claimed agent for concrete evaluations. -/
def agentA : TaskAgent := TaskAgent.create stateA

/-- C6 counterexample: a storage failure during `complete` does not always
propagate to the caller. With a store whose `emit` rejects (and `setStatus`
succeeds), the completion-event emit performed by `complete` rejects — yet
`complete` itself resolves successfully, because the source never awaits
that emit. -/
theorem complete_swallows_completion_emit_failure :
    (failEmitStore.emit
        { taskId := "T1", runId := "R1",
          body := "Run completed with status: completed",
          type := TaskEventType.completion } []).1
      = Except.error dbErr
    ∧ (TaskAgent.complete failEmitStore agentA CompletedTaskState.completed []).1
      = Except.ok () := ⟨rfl, rfl⟩

/-- C6 amended: storage failures during `dispatch`, `claim`'s attempt and
`emitLog` propagate to the immediate caller, and a `setStatus` failure during
`complete` does; but the completion-event emit inside `complete` and the
periodic heartbeat write are not awaited, so their failures are observed by
no caller. No storage call is retried: each operation performs its storage
call exactly once even when that call rejects (shown by the recorded call
traces), and a rejected claim attempt ends the claim loop at once. -/
theorem storage_failures_propagate_except_fire_and_forget :
    (∀ (σ : Type) (store : TaskStore σ) (b : StorageTaskBroker) (spec : TaskSpec) (s : σ),
        (StorageTaskBroker.dispatch store b spec s).1 = (store.createTask spec s).1)
    ∧ (∀ (e : JsError) (rest : List (Except JsError (Option DbTaskRow))),
        claimRun (Except.error e :: rest)
          = ([ClaimEvent.poll (Except.error e)], some (Except.error e)))
    ∧ (∀ (σ : Type) (store : TaskStore σ) (agent : TaskAgent) (message : String) (s : σ),
        TaskAgent.emitLog store agent message s
          = store.emit
              { taskId := agent.state.taskId, runId := agent.state.runId,
                body := message, type := TaskEventType.log } s)
    ∧ (∀ (σ : Type) (store : TaskStore σ) (agent : TaskAgent)
          (result : CompletedTaskState) (s : σ),
        (TaskAgent.complete store agent result s).1
          = Except.map (fun _ => ())
              ((store.setStatus agent.state.runId
                  (if result = CompletedTaskState.failed then Status.failed
                   else Status.completed) s).1))
    ∧ (∀ (σ : Type) (store : TaskStore σ) (agent : TaskAgent) (s : σ),
        (TaskAgent.heartbeatTick store agent s).1
          = if agent.state.runId = ""
            then Except.error { message := "no run id provided" }
            else Except.ok ())
    ∧ (∀ (spec : TaskSpec) (b : StorageTaskBroker),
        StorageTaskBroker.dispatch failStore b spec []
          = (Except.error dbErr, b, [StoreCall.createTask spec]))
    ∧ (∀ (agent : TaskAgent) (message : String),
        TaskAgent.emitLog failStore agent message []
          = (Except.error dbErr,
             [StoreCall.emit
                { taskId := agent.state.taskId, runId := agent.state.runId,
                  body := message, type := TaskEventType.log }]))
    ∧ (∀ (agent : TaskAgent) (result : CompletedTaskState),
        TaskAgent.complete failStore agent result []
          = (Except.error dbErr, agent,
             [StoreCall.setStatus agent.state.runId
                (if result = CompletedTaskState.failed then Status.failed
                 else Status.completed)])) := by
  refine ⟨?_, ?_, ?_, ?_, ?_, ?_, ?_, ?_⟩
  · intro σ store b spec s
    rcases h : store.createTask spec s with ⟨r, s1⟩
    cases r <;> simp [StorageTaskBroker.dispatch, h]
  · intro e rest
    rfl
  · intro σ store agent message s
    rfl
  · intro σ store agent result s
    rcases h : store.setStatus agent.state.runId
        (if result = CompletedTaskState.failed then Status.failed else Status.completed) s
      with ⟨r, s1⟩
    cases r <;> simp [TaskAgent.complete, h, Except.map]
  · intro σ store agent s
    by_cases h : agent.state.runId = "" <;> simp [TaskAgent.heartbeatTick, h]
  · intro spec b
    rfl
  · intro agent message
    rfl
  · intro agent result
    rfl

/-- Behaviour of the observer callback passed to `observe`: given its
`(error, events)` arguments, `none` means it returned normally, `some e`
that it threw `e`. -/
abbrev CallbackBehavior := Option JsError → List DbTaskEventRow → Option JsError

/-- Environment behaviour of one `storage.getEvents` poll: the outcome as a
function of the cursor the loop passes (`{ taskId, after }`). -/
abbrev PollBehavior := Option Nat → Except JsError (List DbTaskEventRow)

/-- One callback invocation performed by the subscription loop: the value of
the in-memory cursor at the moment of the invocation, and the two arguments
the callback received. -/
structure CallbackInvocation where
  after : Option Nat
  error : Option JsError
  events : List DbTaskEventRow
deriving DecidableEq, Repr

/-- Outcome of running the subscription loop against a finite environment:
the callback invocations in order, how many `getEvents` polls began, the
final in-memory cursor, and whether (and with what error) the async loop
terminated by rejection. `crashed = none` with the environment exhausted
means the loop is still polling. -/
structure ObserveResult where
  calls : List CallbackInvocation
  polls : Nat
  finalAfter : Option Nat
  crashed : Option JsError
deriving DecidableEq, Repr


/-- One iteration of the polling loop of `observe` (the body of the async
IIFE's `while`), uncancelled. Await `storage.getEvents` — a rejection
terminates the loop, uncaught, with no callback told — then, if the batch is
non-empty, advance the cursor to the last event's id
(`events[events.length - 1].id`) and invoke the callback with the batch; if
the callback throws, invoke it again with the caught error and an empty
batch; if that second invocation also throws, the error escapes the
iteration and terminates the loop. Returns the callback invocations of the
iteration, the cursor afterwards, and the error that escaped, if any. -/
def observeStep (cb : CallbackBehavior) (after : Option Nat) (poll : PollBehavior) :
    List CallbackInvocation × Option Nat × Option JsError :=
  match poll after with
  | Except.error e => ([], after, some e)
  | Except.ok events =>
    if h : events = [] then ([], after, none)
    else
      let newAfter := some (events.getLast h).id
      match cb none events with
      | none => ([{ after := newAfter, error := none, events := events }], newAfter, none)
      | some err =>
        match cb (some err) [] with
        | none =>
          ([{ after := newAfter, error := none, events := events },
            { after := newAfter, error := some err, events := [] }], newAfter, none)
        | some err2 =>
          ([{ after := newAfter, error := none, events := events },
            { after := newAfter, error := some err, events := [] }], newAfter, some err2)

/-- The polling loop of `observe`, uncancelled, driven by one `PollBehavior`
per iteration it gets to start: iterate `observeStep`, stopping early (and
permanently) when an iteration lets an error escape. -/
def observeRun (cb : CallbackBehavior) :
    Option Nat → List PollBehavior → ObserveResult
  | after, [] => { calls := [], polls := 0, finalAfter := after, crashed := none }
  | after, poll :: rest =>
    match observeStep cb after poll with
    | (calls, newAfter, some e) =>
      { calls := calls, polls := 1, finalAfter := newAfter, crashed := some e }
    | (calls, newAfter, none) =>
      let res := observeRun cb newAfter rest
      { calls := calls ++ res.calls, polls := res.polls + 1,
        finalAfter := res.finalAfter, crashed := res.crashed }

/-- Running the loop against a concatenated environment is running it against
the first part and, unless that crashed the loop, continuing from the
resulting cursor against the second part. -/
theorem observeRun_append (cb : CallbackBehavior) (after : Option Nat)
    (p q : List PollBehavior) :
    observeRun cb after (p ++ q)
      = (let rp := observeRun cb after p
         if rp.crashed.isSome then rp
         else
           let rq := observeRun cb rp.finalAfter q
           { calls := rp.calls ++ rq.calls, polls := rp.polls + rq.polls,
             finalAfter := rq.finalAfter, crashed := rq.crashed }) := by
  induction p generalizing after with
  | nil => simp [observeRun]
  | cons poll rest ih =>
    simp only [List.cons_append, observeRun]
    rcases hstep : observeStep cb after poll with ⟨calls, newAfter, crash⟩
    cases crash with
    | some e => simp
    | none =>
      by_cases hc : (observeRun cb newAfter rest).crashed.isSome
      · simp [ih, hc]
      · simp [ih, hc, List.append_assoc]
        omega

/-- C10: if a `storage.getEvents` call rejects during the polling loop, the
loop terminates permanently: the rejecting poll is the last poll that begins
(no poll of the remaining environment starts), the callback invocations are
exactly those of the iterations before it — in particular no invocation is
told the storage error — and the loop dies carrying that rejection. -/
theorem observe_storage_rejection_ends_loop_silently
    (cb : CallbackBehavior) (after : Option Nat) (pre rest : List PollBehavior)
    (e : JsError) (hpre : (observeRun cb after pre).crashed = none) :
    observeRun cb after (pre ++ (fun _ => Except.error e) :: rest)
      = { calls := (observeRun cb after pre).calls,
          polls := (observeRun cb after pre).polls + 1,
          finalAfter := (observeRun cb after pre).finalAfter,
          crashed := some e } := by
  rw [observeRun_append]
  simp [hpre, observeRun, observeStep]

/-- The rejection carried by the failing `getEvents` poll in the witnesses. -/
def errE : JsError := { message := "getEvents rejected" }

/-- A callback that always returns normally. -/
def cbOk : CallbackBehavior := fun _ _ => none

/-- Witness for C10 at a concrete environment: the loop makes the one
rejecting poll and dies with it, with no callback invocation at all. -/
theorem observe_storage_rejection_witness :
    observeRun cbOk none ([] ++ (fun _ => Except.error errE) :: [])
      = { calls := [], polls := 1, finalAfter := none, crashed := some errE } :=
  observe_storage_rejection_ends_loop_silently cbOk none [] [] errE rfl

/-- A concrete event row of the observed run, with sequence number `n`. -/
def evRow (n : Nat) : DbTaskEventRow :=
  { id := n, runId := "R1", taskId := "T1", body := "message",
    type := TaskEventType.log, createdAt := "" }

/-- A callback that throws on every invocation. -/
def cbAlwaysThrows : CallbackBehavior := fun _ _ => some { message := "observer bug" }

/-- C2 counterexample: an observer whose callback throws while handling
batch 1 — and, being the same callback, also throws on the error-delivery
invocation that follows — kills the polling loop: only one poll ever begins
(`polls = 1` against an environment of two), the loop dies with the
callback's error, and batch 2 (`evRow 2`) is never delivered. -/
theorem observe_callback_throw_can_stop_polling :
    observeRun cbAlwaysThrows (some 0)
        [fun _ => Except.ok [evRow 1], fun _ => Except.ok [evRow 2]]
      = { calls :=
            [{ after := some 1, error := none, events := [evRow 1] },
             { after := some 1, error := some { message := "observer bug" },
               events := [] }],
          polls := 1, finalAfter := some 1,
          crashed := some { message := "observer bug" } } := by
  rfl

/-- The non-empty batches the storage hands an uninterrupted run of the loop,
with the loop's cursor threading made explicit: the environment-side view of
what a subscription should deliver. -/
def batchesOf : Option Nat → List PollBehavior → List (List DbTaskEventRow)
  | _, [] => []
  | after, poll :: rest =>
    match poll after with
    | Except.error _ => []
    | Except.ok events =>
      if h : events = [] then batchesOf after rest
      else events :: batchesOf (some (events.getLast h).id) rest

/-- C2 amended: a callback throw while handling a batch is caught and
delivered at once through a further callback invocation carrying the error
and an empty batch; provided that error-delivery invocation never itself
throws (and storage keeps responding), the loop never crashes, every
scheduled poll begins, and the normal (error-free) invocations deliver
exactly the environment's non-empty batches — so the batch after a throw is
still delivered. -/
theorem observe_callback_errors_isolated
    (cb : CallbackBehavior) (env : List PollBehavior)
    (hrecover : ∀ e, cb (some e) [] = none) :
    ∀ (after : Option Nat),
      (∀ poll ∈ env, ∀ a, ∃ events, poll a = Except.ok events) →
      (observeRun cb after env).crashed = none
      ∧ (observeRun cb after env).polls = env.length
      ∧ ((observeRun cb after env).calls.filter (fun inv => inv.error.isNone)).map
            (fun inv => inv.events)
          = batchesOf after env := by
  induction env with
  | nil =>
    intro after _
    simp [observeRun, batchesOf]
  | cons poll rest ih =>
    intro after hstore
    obtain ⟨events, hp⟩ := hstore poll (List.mem_cons_self poll rest) after
    have hrest : ∀ p ∈ rest, ∀ a, ∃ evs, p a = Except.ok evs :=
      fun p hmem a => hstore p (List.mem_cons_of_mem poll hmem) a
    by_cases h : events = []
    · subst h
      have hr := ih after hrest
      simp [observeRun, observeStep, hp, batchesOf, hr.1, hr.2.1, hr.2.2]
    · cases hcb : cb none events with
      | none =>
        have hr := ih (some ((events.getLast h).id)) hrest
        simp [observeRun, observeStep, hp, h, hcb, batchesOf, hr.1, hr.2.1, hr.2.2]
      | some err =>
        have hr := ih (some ((events.getLast h).id)) hrest
        simp [observeRun, observeStep, hp, h, hcb, hrecover, batchesOf,
          hr.1, hr.2.1, hr.2.2]

/-- A callback that throws while handling any non-empty batch but returns
normally from error-delivery invocations. -/
def cbThrowsOnBatches : CallbackBehavior := fun error events =>
  match error, events with
  | none, _ :: _ => some { message := "observer bug" }
  | _, _ => none

/-- The two-batch environment used by the observe witnesses. -/
def envTwoBatches : List PollBehavior :=
  [fun _ => Except.ok [evRow 1], fun _ => Except.ok [evRow 2]]

/-- Witness for the amended C2: with a callback that throws on every batch
delivery but not on error delivery, both scheduled polls begin, the loop
survives, and both batches are delivered. -/
theorem observe_callback_errors_isolated_witness :
    (observeRun cbThrowsOnBatches (some 0) envTwoBatches).crashed = none
    ∧ (observeRun cbThrowsOnBatches (some 0) envTwoBatches).polls = envTwoBatches.length
    ∧ ((observeRun cbThrowsOnBatches (some 0) envTwoBatches).calls.filter
          (fun inv => inv.error.isNone)).map (fun inv => inv.events)
        = batchesOf (some 0) envTwoBatches :=
  observe_callback_errors_isolated cbThrowsOnBatches envTwoBatches (fun _ => rfl) (some 0)
    (by
      intro p hmem a
      simp only [envTwoBatches, List.mem_cons, List.mem_singleton] at hmem
      rcases hmem with rfl | rfl | hmem
      · exact ⟨[evRow 1], rfl⟩
      · exact ⟨[evRow 2], rfl⟩
      · simp at hmem)

/-- Event Ek of the observed run: storage assigns it sequence number `k`. -/
def mkEv (taskId runId : String) (k : Nat) : DbTaskEventRow :=
  { id := k, runId := runId, taskId := taskId, body := "message",
    type := TaskEventType.log, createdAt := "" }

/-- The contiguous events with sequence numbers c+1 .. m of the run. -/
def canonSeg (taskId runId : String) (c m : Nat) : List DbTaskEventRow :=
  (List.range' (c + 1) (m - c)).map (mkEv taskId runId)

/-- The events E1..En of the run, in emission order. -/
def canonEvents (taskId runId : String) (n : Nat) : List DbTaskEventRow :=
  canonSeg taskId runId 0 n

theorem canonSeg_concat (t r : String) (c m : Nat) (h : c ≤ m) :
    canonSeg t r c (m + 1) = canonSeg t r c m ++ [mkEv t r (m + 1)] := by
  have hm : m + 1 - c = (m - c) + 1 := by omega
  have hs : c + 1 + 1 * (m - c) = m + 1 := by omega
  simp only [canonSeg, hm, List.range'_concat, List.map_append, hs, List.map_cons,
    List.map_nil]

theorem canonSeg_eq_nil (t r : String) (c m : Nat) (h : m ≤ c) :
    canonSeg t r c m = [] := by
  have h0 : m - c = 0 := by omega
  simp [canonSeg, h0]

theorem canonSeg_ne_nil (t r : String) (c m : Nat) (h : c < m) :
    canonSeg t r c m ≠ [] := by
  simp only [canonSeg, ne_eq, List.map_eq_nil_iff, List.range'_eq_nil]
  omega

theorem canonSeg_append (t r : String) (c m M : Nat) (h1 : c ≤ m) (h2 : m ≤ M) :
    canonSeg t r c m ++ canonSeg t r m M = canonSeg t r c M := by
  have hs : m + 1 = c + 1 + 1 * (m - c) := by omega
  have hn : M - c = (M - m) + (m - c) := by omega
  simp only [canonSeg]
  rw [← List.map_append, hs, List.range'_append, ← hn]

theorem canonSeg_getLast? (t r : String) (c m : Nat) (h : c < m) :
    (canonSeg t r c m).getLast? = some (mkEv t r m) := by
  have hm : m - 1 + 1 = m := by omega
  have hcat := canonSeg_concat t r c (m - 1) (by omega)
  rw [hm] at hcat
  rw [hcat, List.getLast?_concat]

/-- Filtering the first `m` events by sequence number greater than `c` gives
exactly the events c+1 .. m, in ascending order. -/
theorem canonEvents_filter (t r : String) (m c : Nat) :
    (canonEvents t r m).filter (fun ev => decide (c < ev.id)) = canonSeg t r c m := by
  induction m with
  | zero => simp [canonEvents, canonSeg]
  | succ m ih =>
    have hc : canonEvents t r (m + 1) = canonEvents t r m ++ [mkEv t r (m + 1)] :=
      canonSeg_concat t r 0 m (Nat.zero_le m)
    rw [hc, List.filter_append, ih]
    by_cases hcm : c < m + 1
    · have h1 : List.filter (fun ev => decide (c < ev.id)) [mkEv t r (m + 1)]
          = [mkEv t r (m + 1)] := by
        simp [mkEv, hcm]
      rw [h1, ← canonSeg_concat t r c m (by omega)]
    · have h1 : List.filter (fun ev => decide (c < ev.id)) [mkEv t r (m + 1)] = [] := by
        simp only [List.filter, mkEv, decide_eq_true_eq]
        simp [hcm]
      have h2 : canonSeg t r c (m + 1) = [] := canonSeg_eq_nil t r c (m + 1) (by omega)
      have h3 : canonSeg t r c m = [] := canonSeg_eq_nil t r c m (by omega)
      rw [h1, h2, h3]
      rfl

/-- Embeds `getEvents({taskId, after})` of the storage contract once the first `m`
events of the run have been persisted: the events with sequence number
greater than `after`, ascending (`after` absent reads from the beginning). -/
def canonPoll (taskId runId : String) (m : Nat) : PollBehavior :=
  fun after =>
    Except.ok ((canonEvents taskId runId m).filter (fun ev => after.getD 0 < ev.id))

/-- The last element of `ms`, or `a` when `ms` is empty: the emitted count
the storage has reached after the polls described by `ms`. -/
def lastCount (a : Nat) : List Nat → Nat
  | [] => a
  | m :: rest => lastCount m rest

theorem lastCount_mem (a : Nat) (ms : List Nat) :
    lastCount a ms = a ∨ lastCount a ms ∈ ms := by
  induction ms generalizing a with
  | nil => exact Or.inl rfl
  | cons m rest ih =>
    rcases ih m with h | h
    · exact Or.inr (by rw [lastCount, h]; exact List.mem_cons_self m rest)
    · exact Or.inr (List.mem_cons_of_mem m h)

theorem le_lastCount (a : Nat) (ms : List Nat) (h : ∀ x ∈ ms, a ≤ x) :
    a ≤ lastCount a ms := by
  rcases lastCount_mem a ms with he | hm
  · exact le_of_eq he.symm
  · exact h (lastCount a ms) hm

/-- Invariant of the polling loop against the canonical storage: starting
from cursor `c`, with monotonically growing emitted counts all at least `c`,
the loop never crashes, every callback invocation carries no error and a
non-empty batch and happens with the cursor already advanced to the batch's
last sequence number, the final cursor is the last emitted count, and the
concatenation of the delivered batches is exactly the events c+1 .. last
emitted count. -/
theorem observeRun_canonical (t r : String) :
    ∀ (ms : List Nat) (c : Nat), ms.Sorted (· ≤ ·) → (∀ m ∈ ms, c ≤ m) →
      (observeRun cbOk (some c) (ms.map (canonPoll t r))).crashed = none
      ∧ (observeRun cbOk (some c) (ms.map (canonPoll t r))).finalAfter
          = some (lastCount c ms)
      ∧ (∀ inv ∈ (observeRun cbOk (some c) (ms.map (canonPoll t r))).calls,
           inv.error = none ∧ inv.events ≠ []
           ∧ inv.after = inv.events.getLast?.map (fun ev => ev.id))
      ∧ ((observeRun cbOk (some c) (ms.map (canonPoll t r))).calls.map
            (fun inv => inv.events)).flatten
          = canonSeg t r c (lastCount c ms) := by
  intro ms
  induction ms with
  | nil =>
    intro c _ _
    refine ⟨rfl, rfl, by simp [observeRun], ?_⟩
    simp [observeRun, lastCount, canonSeg_eq_nil t r c c (le_refl c)]
  | cons m rest ih =>
    intro c hsorted hge
    have hcm : c ≤ m := hge m (List.mem_cons_self m rest)
    have hrest_ge : ∀ x ∈ rest, m ≤ x := (List.sorted_cons.mp hsorted).1
    have hrest_sorted : rest.Sorted (· ≤ ·) := (List.sorted_cons.mp hsorted).2
    have hpoll : canonPoll t r m (some c) = Except.ok (canonSeg t r c m) := by
      simp only [canonPoll, Option.getD_some]
      rw [canonEvents_filter]
    obtain ⟨ih1, ih2, ih3, ih4⟩ := ih m hrest_sorted hrest_ge
    by_cases hlt : c < m
    · have hne : canonSeg t r c m ≠ [] := canonSeg_ne_nil t r c m hlt
      have hlast : ∀ (hx : canonSeg t r c m ≠ []),
          (canonSeg t r c m).getLast hx = mkEv t r m := by
        intro hx
        have hl := canonSeg_getLast? t r c m hlt
        rwa [List.getLast?_eq_getLast _ hx, Option.some.injEq] at hl
      have hstep : observeStep cbOk (some c) (canonPoll t r m)
          = ([{ after := some m, error := none, events := canonSeg t r c m }],
             some m, none) := by
        simp [observeStep, hpoll, hne, cbOk, hlast, mkEv]
      have hml : m ≤ lastCount m rest := le_lastCount m rest hrest_ge
      refine ⟨?_, ?_, ?_, ?_⟩
      · simp only [List.map_cons, observeRun, hstep]
        exact ih1
      · simp only [List.map_cons, observeRun, hstep]
        exact ih2
      · simp only [List.map_cons, observeRun, hstep]
        intro inv hinv
        rcases List.mem_cons.mp hinv with rfl | htail
        · refine ⟨rfl, hne, ?_⟩
          rw [canonSeg_getLast? t r c m hlt]
          simp [mkEv]
        · exact ih3 inv htail
      · simp only [List.map_cons, observeRun, hstep, List.singleton_append,
          List.flatten_cons]
        rw [ih4, canonSeg_append t r c m (lastCount m rest) hcm hml]
        rfl
    · have hmc : m = c := by omega
      subst hmc
      have hemp : canonSeg t r m m = [] := canonSeg_eq_nil t r m m (le_refl m)
      have hstep : observeStep cbOk (some m) (canonPoll t r m) = ([], some m, none) := by
        simp [observeStep, hpoll, hemp]
      refine ⟨?_, ?_, ?_, ?_⟩
      · simp only [List.map_cons, observeRun, hstep]
        exact ih1
      · simp only [List.map_cons, observeRun, hstep]
        exact ih2
      · simp only [List.map_cons, observeRun, hstep]
        intro inv hinv
        exact ih3 inv hinv
      · simp only [List.map_cons, observeRun, hstep]
        exact ih4

/-- C4: against the storage of a run emitting events E1..En (sequence
numbers 1..n assigned in order), a subscription started at `after = 0` whose
polls see monotonically growing emitted counts reaching n: the loop never
crashes, the callback is invoked only with non-empty error-free batches, the
in-memory cursor is advanced to the last delivered event's sequence number
before each invocation, and the concatenation of the delivered batches is
exactly E1..En — no reordering, no duplication, no loss. -/
theorem observe_from_zero_delivers_events_in_order
    (t r : String) (n : Nat) (ms : List Nat)
    (hsorted : ms.Sorted (· ≤ ·)) (hreach : lastCount 0 ms = n) :
    (observeRun cbOk (some 0) (ms.map (canonPoll t r))).crashed = none
    ∧ (∀ inv ∈ (observeRun cbOk (some 0) (ms.map (canonPoll t r))).calls,
         inv.error = none ∧ inv.events ≠ []
         ∧ inv.after = inv.events.getLast?.map (fun ev => ev.id))
    ∧ ((observeRun cbOk (some 0) (ms.map (canonPoll t r))).calls.map
          (fun inv => inv.events)).flatten = canonEvents t r n := by
  obtain ⟨h1, _, h3, h4⟩ :=
    observeRun_canonical t r ms 0 hsorted (fun m _ => Nat.zero_le m)
  exact ⟨h1, h3, by rw [h4, hreach]; rfl⟩

/-- Witness for C4: a run emitting three events, polled twice (after one
event, then after all three): both batches are delivered, in order. -/
theorem observe_from_zero_delivers_events_witness :
    (observeRun cbOk (some 0) ([1, 3].map (canonPoll "T1" "R1"))).crashed = none
    ∧ (∀ inv ∈ (observeRun cbOk (some 0) ([1, 3].map (canonPoll "T1" "R1"))).calls,
         inv.error = none ∧ inv.events ≠ []
         ∧ inv.after = inv.events.getLast?.map (fun ev => ev.id))
    ∧ ((observeRun cbOk (some 0) ([1, 3].map (canonPoll "T1" "R1"))).calls.map
          (fun inv => inv.events)).flatten = canonEvents "T1" "R1" 3 :=
  observe_from_zero_delivers_events_in_order "T1" "R1" 3 [1, 3] (by decide) rfl

/-- Events of a subscription trace, cancellation made visible: the start of
a `getEvents` poll (with the cursor passed), the start of a callback
invocation (with its arguments), and the return of the `unsubscribe` handle
(`cancelled = true` is set and `unsubscribe` returns). -/
inductive ObsTraceEv
  | pollStart (after : Option Nat)
  | cbStart (error : Option JsError) (events : List DbTaskEventRow)
  | unsubscribeReturn
deriving DecidableEq, Repr

/-- When, within one loop iteration, the consumer calls `unsubscribe`: while
the `getEvents` promise is pending and/or while the fixed `setTimeout` delay
is pending. These awaits are the only suspension points of an iteration —
the `while (!cancelled)` check, the batch handling and the callback
invocations run synchronously, so `unsubscribe` cannot run inside them. -/
structure IterSched where
  duringPoll : Bool
  duringSleep : Bool
deriving DecidableEq, Repr

/-- The polling loop of `observe` with cancellation made explicit, producing
the interleaved trace. `cancelled` is consulted only by the `while` check at
the top of each iteration; a poll already in flight when `unsubscribe`
returns still completes, and a non-empty batch it returns is still handed to
the callback in that iteration's continuation. A later `unsubscribe` during
the sleep is recorded only if the flag is not already set. -/
def observeCancelRun (cb : CallbackBehavior) :
    Option Nat → Bool → List (IterSched × PollBehavior) → List ObsTraceEv
  | _, _, [] => []
  | after, cancelled, (sched, poll) :: rest =>
    if cancelled then []
    else
      ObsTraceEv.pollStart after ::
      match poll after with
      | Except.error _ =>
        if sched.duringPoll then [ObsTraceEv.unsubscribeReturn] else []
      | Except.ok events =>
        (if sched.duringPoll then [ObsTraceEv.unsubscribeReturn] else []) ++
        (if h : events = [] then
          (if sched.duringSleep && !sched.duringPoll
            then [ObsTraceEv.unsubscribeReturn] else []) ++
          observeCancelRun cb after (sched.duringPoll || sched.duringSleep) rest
        else
          let newAfter := some (events.getLast h).id
          match cb none events with
          | none =>
            ObsTraceEv.cbStart none events ::
            ((if sched.duringSleep && !sched.duringPoll
               then [ObsTraceEv.unsubscribeReturn] else []) ++
             observeCancelRun cb newAfter (sched.duringPoll || sched.duringSleep) rest)
          | some err =>
            ObsTraceEv.cbStart none events ::
            match cb (some err) [] with
            | none =>
              ObsTraceEv.cbStart (some err) [] ::
              ((if sched.duringSleep && !sched.duringPoll
                 then [ObsTraceEv.unsubscribeReturn] else []) ++
               observeCancelRun cb newAfter (sched.duringPoll || sched.duringSleep) rest)
            | some _ => [ObsTraceEv.cbStart (some err) []])

def isPollStart : ObsTraceEv → Bool
  | ObsTraceEv.pollStart _ => true
  | _ => false

def isCbStart : ObsTraceEv → Bool
  | ObsTraceEv.cbStart _ _ => true
  | _ => false

/-- The part of the trace strictly after `unsubscribe` returned (empty when
`unsubscribe` never returns within the trace). -/
def suffixAfterCancel : List ObsTraceEv → List ObsTraceEv
  | [] => []
  | ObsTraceEv.unsubscribeReturn :: rest => rest
  | _ :: rest => suffixAfterCancel rest

/-- Once the `cancelled` flag is set, the `while` check exits at once: no
further trace event of any kind is produced. -/
theorem observeCancelRun_cancelled (cb : CallbackBehavior) (a : Option Nat)
    (iters : List (IterSched × PollBehavior)) :
    observeCancelRun cb a true iters = [] := by
  cases iters with
  | nil => rfl
  | cons hd tl => rfl

theorem suffixAfterCancel_append_of_no_cancel (xs ys : List ObsTraceEv)
    (h : ∀ e ∈ xs, e ≠ ObsTraceEv.unsubscribeReturn) :
    suffixAfterCancel (xs ++ ys) = suffixAfterCancel ys := by
  induction xs with
  | nil => rfl
  | cons e rest ih =>
    have he := h e (List.mem_cons_self e rest)
    have hrest : ∀ x ∈ rest, x ≠ ObsTraceEv.unsubscribeReturn :=
      fun x hx => h x (List.mem_cons_of_mem e hx)
    cases e with
    | pollStart a => simpa [suffixAfterCancel] using ih hrest
    | cbStart err evs => simpa [suffixAfterCancel] using ih hrest
    | unsubscribeReturn => exact absurd rfl he

/-- C3 counterexample: `unsubscribe` is called (and returns) while the very
first `getEvents` poll is in flight; the poll then resolves with a non-empty
batch and the callback invocation for that batch begins strictly after the
`unsubscribe` call returned — refuting that no callback invocation begins
after the call returns (the invocation was not in progress at the time of
the call: the trace shows it starting only afterwards). -/
theorem callback_begins_after_unsubscribe_returns :
    observeCancelRun cbOk (some 0) false
        [({ duringPoll := true, duringSleep := false },
          fun _ => Except.ok [evRow 1])]
      = [ObsTraceEv.pollStart (some 0), ObsTraceEv.unsubscribeReturn,
         ObsTraceEv.cbStart none [evRow 1]]
    ∧ ((suffixAfterCancel (observeCancelRun cbOk (some 0) false
          [({ duringPoll := true, duringSleep := false },
            fun _ => Except.ok [evRow 1])])).all
        (fun ev => !(isCbStart ev)) = false) := ⟨rfl, rfl⟩

/-- C3 amended: after `unsubscribe` returns, no further `getEvents` poll
begins — the loop exits at the next `while` check — but the iteration whose
poll was in flight when `unsubscribe` returned still completes: at most its
batch-delivery callback invocation and, if that throws, its error-delivery
invocation (two invocations at most) begin after `unsubscribe` returned. -/
theorem unsubscribe_stops_polls_limits_callbacks (cb : CallbackBehavior) :
    ∀ (iters : List (IterSched × PollBehavior)) (after : Option Nat),
      ((suffixAfterCancel (observeCancelRun cb after false iters)).all
          (fun ev => !(isPollStart ev)) = true)
      ∧ (suffixAfterCancel (observeCancelRun cb after false iters)).countP
          isCbStart ≤ 2 := by
  intro iters
  induction iters with
  | nil =>
    intro after
    exact ⟨rfl, by simp [observeCancelRun, suffixAfterCancel]⟩
  | cons hd tl ih =>
    intro after
    obtain ⟨sched, poll⟩ := hd
    obtain ⟨dp, ds⟩ := sched
    cases hp : poll after with
    | error e =>
      cases dp <;>
        simp [observeCancelRun, hp, suffixAfterCancel, isPollStart, isCbStart]
    | ok events =>
      by_cases h : events = []
      · subst h
        cases dp with
        | true =>
          cases ds <;>
            simp [observeCancelRun, hp, suffixAfterCancel, observeCancelRun_cancelled,
              isPollStart, isCbStart]
        | false =>
          cases ds with
          | true =>
            simp [observeCancelRun, hp, suffixAfterCancel, observeCancelRun_cancelled,
              isPollStart, isCbStart]
          | false =>
            have hsfx : suffixAfterCancel (observeCancelRun cb after false
                  ((⟨false, false⟩, poll) :: tl))
                = suffixAfterCancel (observeCancelRun cb after false tl) := by
              simp [observeCancelRun, hp, suffixAfterCancel]
            rw [hsfx]
            exact ih after
      · cases hcb : cb none events with
        | none =>
          cases dp with
          | true =>
            cases ds <;>
              simp [observeCancelRun, hp, h, hcb, suffixAfterCancel,
                observeCancelRun_cancelled, isPollStart, isCbStart]
          | false =>
            cases ds with
            | true =>
              simp [observeCancelRun, hp, h, hcb, suffixAfterCancel,
                observeCancelRun_cancelled, isPollStart, isCbStart]
            | false =>
              have hsfx : suffixAfterCancel (observeCancelRun cb after false
                    ((⟨false, false⟩, poll) :: tl))
                  = suffixAfterCancel
                      (observeCancelRun cb (some ((events.getLast h).id)) false tl) := by
                simp [observeCancelRun, hp, h, hcb, suffixAfterCancel]
              rw [hsfx]
              exact ih (some ((events.getLast h).id))
        | some err =>
          cases hcb2 : cb (some err) [] with
          | none =>
            cases dp with
            | true =>
              cases ds <;>
                simp [observeCancelRun, hp, h, hcb, hcb2, suffixAfterCancel,
                  observeCancelRun_cancelled, isPollStart, isCbStart]
            | false =>
              cases ds with
              | true =>
                simp [observeCancelRun, hp, h, hcb, hcb2, suffixAfterCancel,
                  observeCancelRun_cancelled, isPollStart, isCbStart]
              | false =>
                have hsfx : suffixAfterCancel (observeCancelRun cb after false
                      ((⟨false, false⟩, poll) :: tl))
                    = suffixAfterCancel
                        (observeCancelRun cb (some ((events.getLast h).id)) false tl) := by
                  simp [observeCancelRun, hp, h, hcb, hcb2, suffixAfterCancel]
                rw [hsfx]
                exact ih (some ((events.getLast h).id))
          | some err2 =>
            cases dp <;> cases ds <;>
              simp [observeCancelRun, hp, h, hcb, hcb2, suffixAfterCancel,
                isPollStart, isCbStart]

/-- Phase of the single claimer inside its `claim()` call: about to poll,
storage attempt finished but continuation not yet run, suspended on a gate
generation, or returned with a claimed task. -/
inductive WaiterPhase
  | idle
  | polled (result : Option String)
  | waiting (gate : Nat)
  | claimed (taskId : String)
deriving DecidableEq, Repr

/-- One broker process with one claimer: the open tasks in storage (ids, in
arrival order), the generation of the current dispatch gate — generations
strictly below `gate` have been resolved by past `signalDispatch` calls,
while generation `gate` is the unresolved `deferredDispatch` a new waiter
captures — and the claimer's phase. -/
structure BrokerSystem where
  queue : List String
  gate : Nat
  waiter : WaiterPhase
deriving DecidableEq, Repr

/-- Steps of the claimer alone. `pollEmpty`/`pollHit`: the awaited
`storage.claimTask()` executes atomically against storage, while the
claimer's continuation has not yet run (the promise resolution is a
separate, later event — the race window of `claim`). `claimReturn`: the
continuation observes a row and `claim` returns. `captureGate`: the
continuation observes no row and `waitForDispatch()` captures
`this.deferredDispatch.promise`, the generation current at that moment.
`wake`: a waiter suspended on an already-resolved generation resumes and
loops. -/
inductive WaiterStep : BrokerSystem → BrokerSystem → Prop
  | pollEmpty (s : BrokerSystem) :
      s.waiter = WaiterPhase.idle → s.queue = [] →
      WaiterStep s { s with waiter := WaiterPhase.polled none }
  | pollHit (s : BrokerSystem) (t : String) (q : List String) :
      s.waiter = WaiterPhase.idle → s.queue = t :: q →
      WaiterStep s { s with queue := q, waiter := WaiterPhase.polled (some t) }
  | claimReturn (s : BrokerSystem) (t : String) :
      s.waiter = WaiterPhase.polled (some t) →
      WaiterStep s { s with waiter := WaiterPhase.claimed t }
  | captureGate (s : BrokerSystem) :
      s.waiter = WaiterPhase.polled none →
      WaiterStep s { s with waiter := WaiterPhase.waiting s.gate }
  | wake (s : BrokerSystem) (g : Nat) :
      s.waiter = WaiterPhase.waiting g → g < s.gate →
      WaiterStep s { s with waiter := WaiterPhase.idle }

/-- Steps of the whole system: a claimer step, or a `dispatch` completing —
`createTask` persists the task, then `signalDispatch` resolves the current
gate and installs a fresh one, all before any other continuation runs. -/
inductive SysStep : BrokerSystem → BrokerSystem → Prop
  | waiter (s s' : BrokerSystem) : WaiterStep s s' → SysStep s s'
  | dispatch (s : BrokerSystem) (t : String) :
      SysStep s { s with queue := s.queue ++ [t], gate := s.gate + 1 }

/-- Whether any claimer step is enabled in a state. -/
def waiterEnabled (s : BrokerSystem) : Bool :=
  match s.waiter with
  | WaiterPhase.idle => true
  | WaiterPhase.polled _ => true
  | WaiterPhase.waiting g => decide (g < s.gate)
  | WaiterPhase.claimed _ => false

theorem WaiterStep.enabled {s s' : BrokerSystem} (h : WaiterStep s s') :
    waiterEnabled s = true := by
  cases h with
  | pollEmpty hw hq => simp [waiterEnabled, hw]
  | pollHit t q hw hq => simp [waiterEnabled, hw]
  | claimReturn t hw => simp [waiterEnabled, hw]
  | captureGate hw => simp [waiterEnabled, hw]
  | wake g hw hlt => simp [waiterEnabled, hw, hlt]

/-- A state in which no claimer step is enabled stays fixed under any
sequence of claimer steps: a permanently suspended waiter never claims. -/
theorem waiter_stuck_forever (s s' : BrokerSystem) (hs : waiterEnabled s = false)
    (h : Relation.ReflTransGen WaiterStep s s') : s' = s := by
  rcases Relation.ReflTransGen.cases_head h with heq | ⟨b, hsb, _⟩
  · exact heq.symm
  · exact absurd (WaiterStep.enabled hsb) (by simp [hs])

/-- C1 counterexample: a dispatch signal arriving between the claimer's
failed storage-level `claimTask` attempt and its suspension on the gate is
lost. From the empty system: the claimer's `claimTask` executes and finds
nothing; `dispatch` of task `T1` then persists the task, resolves gate 0 and
installs gate 1; the claimer's continuation now captures gate 1 — a gate
re-armed before the waiter captured it, not the gate the dispatch resolved.
In the resulting state the dispatched task sits unclaimed in storage while
no claimer step is enabled (gate 1 is unresolved), so, absent a further
dispatch, the dispatched task is never claimed. -/
theorem dispatch_between_poll_and_capture_is_lost :
    SysStep { queue := [], gate := 0, waiter := WaiterPhase.idle }
      { queue := [], gate := 0, waiter := WaiterPhase.polled none }
    ∧ SysStep { queue := [], gate := 0, waiter := WaiterPhase.polled none }
      { queue := ["T1"], gate := 1, waiter := WaiterPhase.polled none }
    ∧ SysStep { queue := ["T1"], gate := 1, waiter := WaiterPhase.polled none }
      { queue := ["T1"], gate := 1, waiter := WaiterPhase.waiting 1 }
    ∧ waiterEnabled { queue := ["T1"], gate := 1, waiter := WaiterPhase.waiting 1 }
        = false := by
  refine ⟨?_, ?_, ?_, rfl⟩
  · exact SysStep.waiter _ _ (WaiterStep.pollEmpty _ rfl rfl)
  · exact SysStep.dispatch _ "T1"
  · exact SysStep.waiter _ _ (WaiterStep.captureGate _ rfl)

/-- C1 amended: `signalDispatch` resolves exactly the gate generation that
is current when the dispatch runs, then re-arms. A waiter that captured the
gate before the dispatch — one suspended on the current generation — is
released by the dispatch and then claims the dispatched task by itself:
wake, poll (which now finds the task), and return. A dispatch landing
between the failed storage attempt and the gate capture instead re-arms the
gate before the capture and its signal is lost (see the counterexample). -/
theorem dispatch_after_capture_releases_waiter (g : Nat) (t : String) :
    SysStep { queue := [], gate := g, waiter := WaiterPhase.waiting g }
      { queue := [t], gate := g + 1, waiter := WaiterPhase.waiting g }
    ∧ Relation.ReflTransGen WaiterStep
        { queue := [t], gate := g + 1, waiter := WaiterPhase.waiting g }
        { queue := [], gate := g + 1, waiter := WaiterPhase.claimed t } := by
  constructor
  · exact SysStep.dispatch _ t
  · refine Relation.ReflTransGen.head
      (WaiterStep.wake _ g rfl (Nat.lt_succ_self g)) ?_
    refine Relation.ReflTransGen.head (WaiterStep.pollHit _ t [] rfl rfl) ?_
    refine Relation.ReflTransGen.head (WaiterStep.claimReturn _ t rfl) ?_
    exact Relation.ReflTransGen.refl
